import Mathlib

/-- JavaScript values as used by the options processor: primitives plus
references into a heap of objects. -/
inductive Val where
  | vnull : Val
  | vundef : Val
  | vbool : Bool → Val
  | vnum : Int → Val
  | vstr : String → Val
  | vref : Nat → Val
deriving DecidableEq, Repr

open Val

/-- Heap object: an array flag (lodash isArray) and insertion-ordered own
fields. JavaScript objects never hold duplicate keys; objects built by the
model's `setF` preserve that. -/
structure Obj where
  isArr : Bool
  fields : List (String × Val)
deriving DecidableEq, Repr

/-- Heap: objects addressed by list position, allocation appends. -/
abbrev Heap := List Obj

/-- Dereference an address (out-of-range reads give an empty object; the
walks in the theorems only use valid references). -/
def hget (h : Heap) (a : Nat) : Obj := h.getD a ⟨false, []⟩

/-- Overwrite the object stored at an address. -/
def hset (h : Heap) (a : Nat) (o : Obj) : Heap := h.set a o

/-- Allocate a fresh object, returning its address and the new heap. -/
def halloc (h : Heap) (o : Obj) : Nat × Heap := (h.length, h ++ [o])

/-- First binding of a key in a field list (JavaScript objects have at most
one binding per key). -/
def lookupF : List (String × Val) → String → Option Val
  | [], _ => none
  | kv :: t, k => if kv.1 = k then some kv.2 else lookupF t k

/-- Own-property test (lodash `has` at one level): the key is bound, even
if bound to undefined. -/
def hasK (l : List (String × Val)) (k : String) : Bool := (lookupF l k).isSome

/-- Property read on an object: undefined when the key is absent. -/
def getF (o : Obj) (k : String) : Val := (lookupF o.fields k).getD vundef

/-- Property write on a field list: an existing key keeps its position and
gets the new value, a new key is appended (JavaScript assignment). -/
def setFs : List (String × Val) → String → Val → List (String × Val)
  | [], k, v => [(k, v)]
  | kv :: t, k, v => if kv.1 = k then (k, v) :: t else kv :: setFs t k v

/-- Property write on an object. -/
def setF (o : Obj) (k : String) (v : Val) : Obj := ⟨o.isArr, setFs o.fields k v⟩

/-- Object-literal double spread `\x7b...a, ...b\x7d`: keys of `a` in order
(values overridden by `b` where both bind the key), then the keys of `b`
not bound in `a`, in order. -/
def spreadTwo (a b : List (String × Val)) : List (String × Val) :=
  (a.map fun kv => (kv.1, (lookupF b kv.1).getD kv.2)) ++ b.filter fun kv => !hasK a kv.1

/-- JavaScript truthiness for the modelled values. -/
def truthy : Val → Bool
  | vnull => false
  | vundef => false
  | vbool b => b
  | vnum n => n != 0
  | vstr s => s != ""
  | vref _ => true

/-- Nullish test, as used by the `??` operator. -/
def nullish : Val → Bool
  | vnull => true
  | vundef => true
  | _ => false

/-- Nullish coalescing `v ?? d`. -/
def coalesce (v d : Val) : Val := if nullish v then d else v

/-- lodash isString. -/
def isString : Val → Bool
  | vstr _ => true
  | _ => false

/-- Char-list version of the suffix test, structurally recursive so that
closed instances evaluate inside the kernel. -/
def chPre : List Char → List Char → Bool
  | [], _ => true
  | _ :: _, [] => false
  | a :: as, b :: bs => a == b && chPre as bs

/-- lodash `endsWith(s, suf)`: the string ends with the given suffix. -/
def jsEndsWith (s suf : String) : Bool := chPre suf.data.reverse s.data.reverse

/-- lodash `has(v, "content." ++ k)`: descends the own field `content` and
tests for own key `k` there; false whenever a level is not an object. -/
def hasContentKey (h : Heap) (v : Val) (k : String) : Bool :=
  match v with
  | vref a =>
    match lookupF (hget h a).fields "content" with
    | some (vref b) => hasK (hget h b).fields k
    | _ => false
  | _ => false

/-- Property read through a value: `v.k` gives undefined when `v` is a
primitive (the callers only read properties of truthy values, so the
TypeError on null/undefined bases cannot occur there). -/
def propRead (h : Heap) (v : Val) (k : String) : Val :=
  match v with
  | vref a => getF (hget h a) k
  | _ => vundef

/-- Ghost trace events: calls to external collaborators, plus
instrumentation (`visitE` notes the key trail of each visited key,
`popAccess`/`pushAccess` note the value found in the parent slot at the
non-null access of the pop/push animation transforms, `errEvent` notes a
property write whose base is not an object, which throws in JavaScript).
Hook events record the key, the entire heap at call time and the address
of the object handed to the hook, so theorems can interpret what the hook
observes. -/
inductive Event where
  | visitE : List String → Event
  | procCall : List String → String → Val → Event
  | hookOptions : String → Heap → Nat → String → Event
  | checkDeprecated : Heap → Nat → Event
  | hookDefault : String → Heap → Nat → Event
  | updateProps : Val → Val → Event
  | ensureClass : Val → Event
  | popAccess : Val → Event
  | pushAccess : Val → Event
  | errEvent : String → Event
deriving DecidableEq, Repr

/-- Mutable state threaded through the walk: the heap, the ghost event
trace, and the counter backing the unique-id provider. -/
structure St where
  heap : Heap
  events : List Event
  nextId : Nat
deriving DecidableEq, Repr

/-- Append one trace event. -/
def St.emit (st : St) (e : Event) : St := { st with events := st.events ++ [e] }

/-- Write `options[key] = v` for the object at `addr`. -/
def setSlot (st : St) (addr : Nat) (k : String) (v : Val) : St :=
  { st with heap := hset st.heap addr (setF (hget st.heap addr) k v) }

/-- Current value of `options[key]` for the object at `addr`. -/
def slotOf (st : St) (addr : Nat) (k : String) : Val := getF (hget st.heap addr) k

/-- External collaborators of the processor: the path-keyed processor
registry, the color-resolution service and the asset-resolution service.
Registered processors are functions of the value and the command name. -/
structure Env where
  getProcessors : String → Option (List (Val → String → Val))
  toNativeColor : Val → Val
  resolveFromRequire : Val → Val

/-- resolveObjectPath from the source: an absent or empty parent path (both
falsy in JavaScript) yields the key alone, otherwise dot-append. The root
call passes the empty string for the absent path. -/
def resolveObjectPath (key : String) (path : String) : String :=
  if path = "" then key else path ++ "." ++ key

/-- processWithRegisteredProcessor: looks up the processors registered for
the path; each processor is called with the value the walk enumerated for
this key (the source passes the unchanged `value` parameter to every
processor) and its result is stored into the slot, so the last processor
wins. Each call is traced with the input the processor received. -/
def processWithRegisteredProcessor (env : Env) (key : String) (value : Val) (addr : Nat)
    (path : String) (commandName : String) (trail : List String) (st : St) : St :=
  match env.getProcessors path with
  | none => st
  | some ps =>
    ps.foldl (fun st p =>
      setSlot (st.emit (.procCall trail path value)) addr key (p value commandName)) st

/-- processColor: for key `color` or a key ending in `Color`, stores
NoColor when the enumerated value is strictly null, otherwise the color
service result for that value. -/
def processColor (env : Env) (key : String) (value : Val) (addr : Nat) (st : St) : St :=
  if key = "color" || jsEndsWith key "Color" then
    setSlot st addr key (if value = vnull then vstr "NoColor" else env.toNativeColor value)
  else st

/-- processImage: for key `icon`, `image`, or a key ending in `Icon` or
`Image`, keeps a string value and resolves anything else through the asset
service. -/
def processImage (env : Env) (key : String) (value : Val) (addr : Nat) (st : St) : St :=
  if key = "icon" || key = "image" || jsEndsWith key "Icon" || jsEndsWith key "Image" then
    setSlot st addr key (if isString value then value else env.resolveFromRequire value)
  else st

/-- One button of processButtonsPassProps: when the button object carries
truthy `passProps` and `id`, forwards the props to the store and clears the
inline field. Non-object entries are skipped (a property read on a
primitive yields undefined, which is falsy). -/
def processOneButton (st : St) (button : Val) : St :=
  match button with
  | vref b =>
    let pp := getF (hget st.heap b) "passProps"
    let bid := getF (hget st.heap b) "id"
    if truthy pp && truthy bid then
      let st := st.emit (.updateProps bid pp)
      { st with heap := hset st.heap b (setF (hget st.heap b) "passProps" vundef) }
    else st
  | _ => st

/-- processButtonsPassProps: for a key ending in `Buttons`, iterates the
entries of the value (array elements or object field values). -/
def processButtonsPassProps (key : String) (value : Val) (st : St) : St :=
  if jsEndsWith key "Buttons" then
    match value with
    | vref a => ((hget st.heap a).fields.map Prod.snd).foldl processOneButton st
    | _ => st
  else st

/-- processComponent: assigns `componentId` (reusing a truthy `id`, else a
fresh CustomComponent id from the counter-backed unique-id provider, which
lives outside the analysed file), registers the class name, forwards a
truthy `passProps` bag to the store, then clears `passProps` on the current
slot value re-read from the node. -/
def processComponent (key : String) (value : Val) (addr : Nat) (st : St) : St :=
  if key = "component" then
    match value with
    | vref a =>
      let idv := getF (hget st.heap a) "id"
      let cid := if truthy idv then idv else vstr ("CustomComponent" ++ toString st.nextId)
      let st := if truthy idv then st else { st with nextId := st.nextId + 1 }
      let st := { st with heap := hset st.heap a (setF (hget st.heap a) "componentId" cid) }
      let st := st.emit (.ensureClass (getF (hget st.heap a) "name"))
      let pp := getF (hget st.heap a) "passProps"
      let st := if truthy pp then st.emit (.updateProps cid pp) else st
      match getF (hget st.heap addr) key with
      | vref b => { st with heap := hset st.heap b (setF (hget st.heap b) "passProps" vundef) }
      | _ => st.emit (.errEvent "component.passProps")
    | _ => st.emit (.errEvent "component")
  else st

/-- deprecatedSearchBarOptions, the defaults object the search-bar
transform builds from the legacy sibling fields of the parent node. -/
def deprecatedSearchBarOptions (options : Obj) : List (String × Val) :=
  [("visible", vbool false),
   ("hideOnScroll", coalesce (getF options "searchBarHiddenWhenScrolling") (vbool false)),
   ("hideTopBarOnFocus", coalesce (getF options "hideNavBarOnFocusSearchBar") (vbool false)),
   ("obscuresBackgroundDuringPresentation", vbool false),
   ("backgroundColor", getF options "searchBarBackgroundColor"),
   ("tintColor", getF options "searchBarTintColor"),
   ("placeholder", coalesce (getF options "searchBarPlaceholder") (vstr ""))]

/-- Fields contributed by spreading a value into an object literal: an
object or array spreads its own fields, a string spreads its indexed
characters, other primitives spread nothing. -/
def spreadSrc (h : Heap) (v : Val) : List (String × Val) :=
  match v with
  | vref a => (hget h a).fields
  | vstr s => (s.toList.zip (List.range s.length)).map
      fun ci => (toString ci.2, vstr (String.mk [ci.1]))
  | _ => []

/-- processSearchBar: for key `searchBar`, a boolean value is the
deprecated visible flag (deprecation hook fires, defaults overridden with
`visible`), any other value is merged over the defaults. Either way a
freshly allocated object replaces the slot. -/
def processSearchBar (key : String) (value : Val) (addr : Nat) (st : St) : St :=
  if key = "searchBar" then
    let dso := deprecatedSearchBarOptions (hget st.heap addr)
    match value with
    | vbool b =>
      let st := st.emit (.hookOptions key st.heap addr "")
      let (na, h) := halloc st.heap ⟨false, spreadTwo dso [("visible", vbool b)]⟩
      setSlot { st with heap := h } addr key (vref na)
    | _ =>
      let (na, h) := halloc st.heap ⟨false, spreadTwo dso (spreadSrc st.heap value)⟩
      setSlot { st with heap := h } addr key (vref na)
  else st

/-- processInterpolation: for key `interpolation` and a string enumerated
value, fires the deprecation hook and replaces the slot with a fresh
object whose `type` field holds whatever the slot currently holds (the
source reads `options[key]`, not the `value` parameter). -/
def processInterpolation (key : String) (value : Val) (addr : Nat) (st : St) : St :=
  if key = "interpolation" then
    if isString value then
      let st := st.emit (.hookOptions key st.heap addr "")
      let cur := getF (hget st.heap addr) key
      let (na, h) := halloc st.heap ⟨false, [("type", cur)]⟩
      setSlot { st with heap := h } addr key (vref na)
    else st
  else st

/-- processSetStackRoot: for key `setStackRoot` with neither `content.enter`
nor `content.exit` on the value, replaces the slot with a fresh
`\x7b content: \x7b enter: value \x7d \x7d` wrapping the whole value. -/
def processSetStackRoot (key : String) (animation : Val) (addr : Nat) (st : St) : St :=
  if key = "setStackRoot" then
    if hasContentKey st.heap animation "enter" || hasContentKey st.heap animation "exit" then st
    else
      let (inner, h) := halloc st.heap ⟨false, [("enter", animation)]⟩
      let (outer, h2) := halloc h ⟨false, [("content", vref inner)]⟩
      setSlot { st with heap := h2 } addr key (vref outer)
  else st

/-- processPop: for key `pop` with neither `content.enter` nor
`content.exit` on the value, performs the non-null access
`parentOptions.pop` (traced as `popAccess` with the value found there) and
sets that object's `content` field to a fresh
`\x7b exit: animation.content \x7d`. A non-object slot is traced as an
error (the JavaScript assignment throws there). -/
def processPop (key : String) (animation : Val) (addr : Nat) (st : St) : St :=
  if key = "pop" then
    if hasContentKey st.heap animation "enter" || hasContentKey st.heap animation "exit" then st
    else
      let slot := getF (hget st.heap addr) "pop"
      let st := st.emit (.popAccess slot)
      match slot with
      | vref p =>
        let (na, h) := halloc st.heap ⟨false, [("exit", propRead st.heap animation "content")]⟩
        { st with heap := hset h p (setF (hget h p) "content" (vref na)) }
      | _ => st.emit (.errEvent "pop")
  else st

/-- processPush: for key `push` with neither `content.enter` nor
`content.exit` on the value, performs the non-null access
`parentOptions.push` (traced as `pushAccess`) and sets that object's
`content` field to a fresh `\x7b enter: animation.content \x7d`. -/
def processPush (key : String) (animation : Val) (addr : Nat) (st : St) : St :=
  if key = "push" then
    if hasContentKey st.heap animation "enter" || hasContentKey st.heap animation "exit" then st
    else
      let slot := getF (hget st.heap addr) "push"
      let st := st.emit (.pushAccess slot)
      match slot with
      | vref p =>
        let (na, h) := halloc st.heap ⟨false, [("enter", propRead st.heap animation "content")]⟩
        { st with heap := hset h p (setF (hget h p) "content" (vref na)) }
      | _ => st.emit (.errEvent "push")
  else st

/-- processAnimation: push, then pop, then setStackRoot, in source order. -/
def processAnimation (key : String) (value : Val) (addr : Nat) (st : St) : St :=
  processSetStackRoot key value addr (processPop key value addr (processPush key value addr st))

/-- Per-visit callback built by the two public entry points: the
processOptions callback fires the standard deprecation hook with the
command name and then the deprecated-options check, both on the snapshot;
the processDefaultOptions callback fires the default-options hook. -/
inductive CbKind where
  | optionsCb : Nat → CbKind
  | defaultCb : Nat → CbKind
deriving DecidableEq, Repr

/-- Run the per-visit callback, tracing the hook calls together with the
heap at call time and the snapshot address handed to the hook. -/
def runCallback (cbk : CbKind) (commandName : String) (key : String) (st : St) : St :=
  match cbk with
  | .optionsCb snap =>
    (st.emit (.hookOptions key st.heap snap commandName)).emit (.checkDeprecated st.heap snap)
  | .defaultCb snap => st.emit (.hookDefault key st.heap snap)

/-- One iteration of the forEach body of processObject for a single key:
reads the enumerated value from the live node, computes the dotted path,
applies the registry step and the color transform, short-circuits on a
falsy enumerated value, otherwise applies the remaining transforms, the
callback, and finally re-reads the slot and recurses into a composite
value unless the key is passProps. `recurse` is instantiated with the
fuelled processObject. -/
def visitKey (env : Env) (cbk : CbKind) (commandName : String)
    (recurse : Nat → String → List String → St → St)
    (addr : Nat) (key : String) (parentPath : String) (trail : List String) (st : St) : St :=
  let value := getF (hget st.heap addr) key
  let objectPath := resolveObjectPath key parentPath
  let st := st.emit (.visitE (trail ++ [key]))
  let st := processWithRegisteredProcessor env key value addr objectPath commandName
    (trail ++ [key]) st
  let st := processColor env key value addr st
  if truthy value then
    let st := processComponent key value addr st
    let st := processImage env key value addr st
    let st := processButtonsPassProps key value st
    let st := processSearchBar key value addr st
    let st := processInterpolation key value addr st
    let st := processAnimation key value addr st
    let st := runCallback cbk commandName key st
    match getF (hget st.heap addr) key with
    | vref a => if key = "passProps" then st else recurse a objectPath (trail ++ [key]) st
    | _ => st
  else st

/-- processObject: iterates the keys of the node at `addr` (the key list is
captured at entry, as lodash forEach does) and runs the per-key body;
recursion is fuelled, since a heap with reference cycles would make the
JavaScript recursion diverge as well. The ghost `trail` records the list
of keys from the root for instrumentation. -/
def processObject (env : Env) (cbk : CbKind) (commandName : String) :
    Nat → Nat → String → List String → St → St
  | 0, _, _, _, st => st
  | fuel + 1, addr, parentPath, trail, st =>
    ((hget st.heap addr).fields.map Prod.fst).foldl
      (fun st key =>
        visitKey env cbk commandName (processObject env cbk commandName fuel)
          addr key parentPath trail st)
      st

/-- processOptions: shallow-clones the root (lodash clone copies the
top-level field list, sharing every referenced child object) as the stable
parent handed to the deprecation callbacks, then walks the live root. -/
def processOptions (env : Env) (fuel : Nat) (addr : Nat) (commandName : String) (st : St) : St :=
  let (snap, h) := halloc st.heap (hget st.heap addr)
  processObject env (.optionsCb snap) commandName fuel addr "" [] { st with heap := h }

/-- processDefaultOptions: same walk with the default-options callback. -/
def processDefaultOptions (env : Env) (fuel : Nat) (addr : Nat) (commandName : String)
    (st : St) : St :=
  let (snap, h) := halloc st.heap (hget st.heap addr)
  processObject env (.defaultCb snap) commandName fuel addr "" [] { st with heap := h }

/-- Sample color service: tags string colors, maps anything else to a fixed
handle. Any behaviour is allowed of the external service; theorems about
the core hold for every environment, counterexamples pick this one. -/
def natColor : Val → Val
  | vstr s => vstr ("native:" ++ s)
  | _ => vstr "native:?"

/-- Environment with an empty processor registry. -/
def envNone : Env := ⟨fun _ => none, natColor, fun _ => vstr "asset"⟩

/-- Registered processor that always returns the string blue. -/
def procBlue : Val → String → Val := fun _ _ => vstr "blue"

/-- Registered processor that always returns the string green. -/
def procGreen : Val → String → Val := fun _ _ => vstr "green"

/-- Registered processor that always returns the boolean false. -/
def procFalse : Val → String → Val := fun _ _ => vbool false

/-- Registered processor that always returns undefined. -/
def procUndef : Val → String → Val := fun _ _ => vundef

/-- Environment registering two processors for path `color`: the first
always returns the string blue, the second always returns green. -/
def envTwoProcs : Env :=
  ⟨fun p => if p = "color" then some [procBlue, procGreen] else none,
   natColor, fun _ => vstr "asset"⟩

/-- Environment registering one processor for path `a` that replaces the
value with the boolean false. -/
def envFalsyProc : Env :=
  ⟨fun p => if p = "a" then some [procFalse] else none,
   natColor, fun _ => vstr "asset"⟩

/-- Environment registering one processor for path `pop` that replaces the
value with undefined. -/
def envPopProc : Env :=
  ⟨fun p => if p = "pop" then some [procUndef] else none,
   natColor, fun _ => vstr "asset"⟩

/-- Event predicate for the passProps claim: a visit or a registered
processor call never happens strictly below a passProps key. -/
def noAncestorPassProps (e : Event) : Bool :=
  match e with
  | .visitE t => decide ("passProps" ∉ t.dropLast)
  | .procCall t _ _ => decide ("passProps" ∉ t.dropLast)
  | _ => true

/-- Event predicate for the pop/push access claim: every non-null access
of the pop/push animation transforms found a truthy value in the slot. -/
def animAccessTruthy (e : Event) : Bool :=
  match e with
  | .popAccess v => truthy v
  | .pushAccess v => truthy v
  | _ => true

/-- Inputs handed to the registered processors, in call order. -/
def procInputs (es : List Event) : List Val :=
  es.filterMap fun e => match e with | .procCall _ _ v => some v | _ => none

/-- Walk of `\x7b color: "red" \x7d` under the two-processor registry. -/
def c1run : St :=
  processOptions envTwoProcs 5 0 "cmd" ⟨[⟨false, [("color", vstr "red")]⟩], [], 0⟩

/-- Walk of `\x7b push: \x7b someAnim: 1 \x7d \x7d`. -/
def c2run : St :=
  processOptions envNone 5 0 "cmd"
    ⟨[⟨false, [("push", vref 1)]⟩, ⟨false, [("someAnim", vnum 1)]⟩], [], 0⟩

/-- Heap for `\x7b a: \x7b color: null, x: 1 \x7d \x7d` before the walk. -/
def c3initHeap : Heap :=
  [⟨false, [("a", vref 1)]⟩, ⟨false, [("color", vnull), ("x", vnum 1)]⟩]

/-- Walk of the nested color object under processOptions. -/
def c3run : St := processOptions envNone 5 0 "cmd" ⟨c3initHeap, [], 0⟩

/-- Heap observed by the callback for key x: the nested node shared with
the snapshot has already been mutated. -/
def c3obsHeap : Heap :=
  [⟨false, [("a", vref 1)]⟩, ⟨false, [("color", vstr "NoColor"), ("x", vnum 1)]⟩,
   ⟨false, [("a", vref 1)]⟩]

/-- What a deprecation callback observes when it reads key `k` and then
key `k2` below it through the parent object at `snap`. -/
def snapView (h : Heap) (snap : Nat) (k k2 : String) : Val :=
  propRead h (getF (hget h snap) k) k2

/-- Walk of `\x7b a: 1 \x7d` under a registry whose processor for path `a`
returns false. -/
def c4run : St :=
  processOptions envFalsyProc 5 0 "cmd" ⟨[⟨false, [("a", vnum 1)]⟩], [], 0⟩

/-- Walk of `\x7b color: undefined \x7d`. -/
def c7run : St :=
  processOptions envNone 5 0 "cmd" ⟨[⟨false, [("color", vundef)]⟩], [], 0⟩

/-- Walk of `\x7b pop: \x7b x: 1 \x7d \x7d` under a registry whose
processor for path `pop` returns undefined. -/
def c10run : St :=
  processOptions envPopProc 5 0 "cmd"
    ⟨[⟨false, [("pop", vref 1)]⟩, ⟨false, [("x", vnum 1)]⟩], [], 0⟩

/-- Start state for the registry witness: the single node
\x7b color: "red" \x7d. -/
def stW : St := ⟨[⟨false, [("color", vstr "red")]⟩], [], 0⟩

/-- Start state for the push witness: \x7b push: \x7b someAnim: 1 \x7d \x7d
with the push slot referring to object 1. -/
def stPush : St := ⟨[⟨false, [("push", vref 1)]⟩, ⟨false, [("someAnim", vnum 1)]⟩], [], 0⟩

/-- Start state for the falsy-value witness: the single node
\x7b a: null \x7d. -/
def stFalsy : St := ⟨[⟨false, [("a", vnull)]⟩], [], 0⟩

/-- Inert recursion stub used to exercise visitKey directly. -/
def recNone : Nat → String → List String → St → St := fun _ _ _ s => s

/-- Start state for the search-bar witness: a searchBar true with one
legacy sibling present. -/
def stSb : St :=
  ⟨[⟨false, [("searchBar", vbool true), ("searchBarPlaceholder", vstr "find")]⟩], [], 0⟩

/-- Start state for the interpolation witness: \x7b interpolation:
"easeIn" \x7d. -/
def stInt : St := ⟨[⟨false, [("interpolation", vstr "easeIn")]⟩], [], 0⟩

/-- Start state for the color witness: the single node
\x7b color: null \x7d. -/
def stCol : St := ⟨[⟨false, [("color", vnull)]⟩], [], 0⟩

/-- Start state for the idempotence witness. -/
def c9st : St := ⟨[⟨false, [("searchBar", vref 1)]⟩, ⟨false, [("visible", vbool true)]⟩], [], 0⟩

/-- Start state for the passProps witness:
\x7b passProps: \x7b color: null \x7d \x7d. -/
def c8st : St := ⟨[⟨false, [("passProps", vref 1)]⟩, ⟨false, [("color", vnull)]⟩], [], 0⟩

/-- Start state for the pop-access witness: \x7b pop: \x7b x: 1 \x7d \x7d. -/
def c10st : St := ⟨[⟨false, [("pop", vref 1)]⟩, ⟨false, [("x", vnum 1)]⟩], [], 0⟩

/-! ### Helper lemmas -/

@[simp] theorem events_ite (c : Prop) [Decidable c] (s t : St) :
    (if c then s else t).events = if c then s.events else t.events := by
  split <;> rfl

theorem length_hset (h : Heap) (a : Nat) (o : Obj) : (hset h a o).length = h.length := by
  simp [hset]

theorem hget_hset_self (h : Heap) (a : Nat) (o : Obj) (ha : a < h.length) :
    hget (hset h a o) a = o := by
  simp [hget, hset, List.getD_eq_getElem?_getD, List.getElem?_set_self ha]

theorem hget_hset_of_ne (h : Heap) (a b : Nat) (o : Obj) (hne : a ≠ b) :
    hget (hset h a o) b = hget h b := by
  simp [hget, hset, List.getD_eq_getElem?_getD, List.getElem?_set_ne hne]

theorem hget_append_lt (h : Heap) (o : Obj) (a : Nat) (ha : a < h.length) :
    hget (h ++ [o]) a = hget h a := by
  simp [hget, List.getD_eq_getElem?_getD, List.getElem?_append, ha]

theorem hget_append_len (h : Heap) (o : Obj) : hget (h ++ [o]) h.length = o := by
  simp [hget, List.getD_eq_getElem?_getD, List.getElem?_append_right (Nat.le_refl _)]

theorem lookupF_setFs_self (l : List (String × Val)) (k : String) (v : Val) :
    lookupF (setFs l k v) k = some v := by
  induction l with
  | nil => simp [setFs, lookupF]
  | cons kv t ih =>
    by_cases hk : kv.1 = k
    · simp [setFs, hk, lookupF]
    · simp [setFs, hk, lookupF, ih]

theorem lookupF_setFs_of_ne (l : List (String × Val)) (k k2 : String) (v : Val)
    (hne : k2 ≠ k) : lookupF (setFs l k v) k2 = lookupF l k2 := by
  induction l with
  | nil => simp [setFs, lookupF, Ne.symm hne]
  | cons kv t ih =>
    by_cases hk : kv.1 = k
    · simp [setFs, hk, lookupF, Ne.symm hne, hne]
    · simp [setFs, hk, lookupF, ih]

theorem getF_setF_self (o : Obj) (k : String) (v : Val) : getF (setF o k v) k = v := by
  simp [getF, setF, lookupF_setFs_self]

theorem getF_setF_of_ne (o : Obj) (k k2 : String) (v : Val) (hne : k2 ≠ k) :
    getF (setF o k v) k2 = getF o k2 := by
  simp [getF, setF, lookupF_setFs_of_ne _ _ _ _ hne]

theorem slotOf_setSlot_self (st : St) (addr : Nat) (k : String) (v : Val)
    (ha : addr < st.heap.length) : slotOf (setSlot st addr k v) addr k = v := by
  simp [slotOf, setSlot, hget_hset_self _ _ _ ha, getF_setF_self]

theorem slotOf_setSlot_of_ne (st : St) (addr : Nat) (k k2 : String) (v : Val)
    (hne : k2 ≠ k) : slotOf (setSlot st addr k v) addr k2 = slotOf st addr k2 := by
  by_cases ha : addr < st.heap.length
  · simp [slotOf, setSlot, hget_hset_self _ _ _ ha, getF_setF_of_ne _ _ _ _ hne]
  · have hnone : st.heap[addr]? = none := List.getElem?_eq_none (Nat.le_of_not_lt ha)
    simp [slotOf, setSlot, hget, hset, List.getD_eq_getElem?_getD,
      List.getElem?_set, ha, hnone]

theorem events_setSlot (st : St) (addr : Nat) (k : String) (v : Val) :
    (setSlot st addr k v).events = st.events := rfl

theorem heap_emit (st : St) (e : Event) : (st.emit e).heap = st.heap := rfl

/-- Transitivity of the one-step trace-shape relation. -/
theorem shape_step {Q : Event → Prop} {s0 s1 s2 : St}
    (h01 : ∀ e ∈ s1.events, e ∈ s0.events ∨ Q e)
    (h12 : ∀ e ∈ s2.events, e ∈ s1.events ∨ Q e) :
    ∀ e ∈ s2.events, e ∈ s0.events ∨ Q e := by
  intro e he
  rcases h12 e he with h | h
  · exact h01 e h
  · exact Or.inr h

theorem shape_of_events_eq {Q : Event → Prop} {s0 s1 : St} (h : s1.events = s0.events) :
    ∀ e ∈ s1.events, e ∈ s0.events ∨ Q e := by
  intro e he
  exact Or.inl (h ▸ he)

theorem events_shape_foldl {α : Type} (Q : Event → Prop) (f : St → α → St)
    (hf : ∀ st a, ∀ e ∈ (f st a).events, e ∈ st.events ∨ Q e) :
    ∀ (xs : List α) (st : St), ∀ e ∈ (List.foldl f st xs).events, e ∈ st.events ∨ Q e := by
  intro xs
  induction xs with
  | nil => intro st e he; exact Or.inl he
  | cons x t ih => intro st; exact shape_step (hf st x) (ih (f st x))

theorem processWithRegisteredProcessor_none (env : Env) (key : String) (v : Val) (addr : Nat)
    (path cmd : String) (trail : List String) (st : St)
    (henv : env.getProcessors path = none) :
    processWithRegisteredProcessor env key v addr path cmd trail st = st := by
  simp [processWithRegisteredProcessor, henv]

theorem processColor_id (env : Env) (key : String) (v : Val) (addr : Nat) (st : St)
    (hc : (decide (key = "color") || jsEndsWith key "Color") = false) :
    processColor env key v addr st = st := by
  simp only [processColor, hc, Bool.false_eq_true, if_false]

theorem processImage_id (env : Env) (key : String) (v : Val) (addr : Nat) (st : St)
    (hc : (decide (key = "icon") || decide (key = "image") || jsEndsWith key "Icon"
        || jsEndsWith key "Image") = false) :
    processImage env key v addr st = st := by
  simp only [processImage, hc, Bool.false_eq_true, if_false]

theorem processButtonsPassProps_id (key : String) (v : Val) (st : St)
    (hc : jsEndsWith key "Buttons" = false) :
    processButtonsPassProps key v st = st := by
  simp only [processButtonsPassProps, hc, Bool.false_eq_true, if_false]

theorem processComponent_id (key : String) (v : Val) (addr : Nat) (st : St)
    (hk : key ≠ "component") : processComponent key v addr st = st := by
  simp [processComponent, hk]

theorem processSearchBar_id (key : String) (v : Val) (addr : Nat) (st : St)
    (hk : key ≠ "searchBar") : processSearchBar key v addr st = st := by
  simp [processSearchBar, hk]

theorem processInterpolation_id (key : String) (v : Val) (addr : Nat) (st : St)
    (hk : key ≠ "interpolation") : processInterpolation key v addr st = st := by
  simp [processInterpolation, hk]

theorem processPop_id (key : String) (v : Val) (addr : Nat) (st : St)
    (hk : key ≠ "pop") : processPop key v addr st = st := by
  simp [processPop, hk]

theorem processPush_id (key : String) (v : Val) (addr : Nat) (st : St)
    (hk : key ≠ "push") : processPush key v addr st = st := by
  simp [processPush, hk]

theorem processSetStackRoot_id (key : String) (v : Val) (addr : Nat) (st : St)
    (hk : key ≠ "setStackRoot") : processSetStackRoot key v addr st = st := by
  simp [processSetStackRoot, hk]

theorem events_processColor (env : Env) (key : String) (v : Val) (addr : Nat) (st : St) :
    (processColor env key v addr st).events = st.events := by
  unfold processColor
  split <;> rfl

theorem events_processImage (env : Env) (key : String) (v : Val) (addr : Nat) (st : St) :
    (processImage env key v addr st).events = st.events := by
  unfold processImage
  split <;> rfl

theorem events_processSetStackRoot (key : String) (v : Val) (addr : Nat) (st : St) :
    (processSetStackRoot key v addr st).events = st.events := by
  unfold processSetStackRoot
  repeat' split
  all_goals rfl

theorem events_shape_processWithRegisteredProcessor (Q : Event → Prop) (env : Env)
    (key : String) (v : Val) (addr : Nat) (path cmd : String) (trail : List String) (st : St)
    (hq : ∀ w, Q (Event.procCall trail path w)) :
    ∀ e ∈ (processWithRegisteredProcessor env key v addr path cmd trail st).events,
      e ∈ st.events ∨ Q e := by
  unfold processWithRegisteredProcessor
  cases henv : env.getProcessors path with
  | none => intro e he; exact Or.inl he
  | some ps =>
    refine events_shape_foldl Q _ ?_ ps st
    intro s p e he
    simp only [setSlot, St.emit, List.mem_append, List.mem_singleton] at he
    rcases he with h | rfl
    · exact Or.inl h
    · exact Or.inr (hq _)

theorem events_shape_processOneButton (Q : Event → Prop) (st : St) (b : Val)
    (hup : ∀ i p, Q (Event.updateProps i p)) :
    ∀ e ∈ (processOneButton st b).events, e ∈ st.events ∨ Q e := by
  intro e he
  simp only [processOneButton, St.emit, events_ite, ite_self] at he
  repeat' split at he
  all_goals try simp only [List.mem_append, List.mem_singleton] at he
  all_goals try casesm* _ ∨ _
  all_goals try exact Or.inl ‹_›
  all_goals subst_eqs
  all_goals exact Or.inr (hup _ _)

theorem events_shape_processButtonsPassProps (Q : Event → Prop) (key : String) (v : Val)
    (st : St) (hup : ∀ i p, Q (Event.updateProps i p)) :
    ∀ e ∈ (processButtonsPassProps key v st).events, e ∈ st.events ∨ Q e := by
  unfold processButtonsPassProps
  split
  · cases v with
    | vref a =>
      exact events_shape_foldl Q _ (fun s b => events_shape_processOneButton Q s b hup) _ st
    | vnull => intro e he; exact Or.inl he
    | vundef => intro e he; exact Or.inl he
    | vbool b => intro e he; exact Or.inl he
    | vnum n => intro e he; exact Or.inl he
    | vstr s => intro e he; exact Or.inl he
  · intro e he; exact Or.inl he

set_option maxHeartbeats 1000000 in
theorem events_shape_processComponent (Q : Event → Prop) (key : String) (v : Val) (addr : Nat)
    (st : St) (hec : ∀ w, Q (Event.ensureClass w)) (hup : ∀ i p, Q (Event.updateProps i p))
    (herr : ∀ s, Q (Event.errEvent s)) :
    ∀ e ∈ (processComponent key v addr st).events, e ∈ st.events ∨ Q e := by
  intro e he
  simp only [processComponent, St.emit, events_ite, ite_self] at he
  repeat' split at he
  all_goals try simp only [List.mem_append, List.mem_singleton] at he
  all_goals try casesm* _ ∨ _
  all_goals try exact Or.inl ‹_›
  all_goals subst_eqs
  all_goals first
    | exact Or.inr (hec _)
    | exact Or.inr (hup _ _)
    | exact Or.inr (herr _)

theorem events_shape_processSearchBar (Q : Event → Prop) (key : String) (v : Val) (addr : Nat)
    (st : St) (hq : ∀ h a, Q (Event.hookOptions key h a "")) :
    ∀ e ∈ (processSearchBar key v addr st).events, e ∈ st.events ∨ Q e := by
  intro e he
  simp only [processSearchBar, St.emit, setSlot, events_ite, ite_self] at he
  repeat' split at he
  all_goals try simp only [List.mem_append, List.mem_singleton] at he
  all_goals try casesm* _ ∨ _
  all_goals try exact Or.inl ‹_›
  all_goals subst_eqs
  all_goals exact Or.inr (hq _ _)

theorem events_shape_processInterpolation (Q : Event → Prop) (key : String) (v : Val)
    (addr : Nat) (st : St) (hq : ∀ h a, Q (Event.hookOptions key h a "")) :
    ∀ e ∈ (processInterpolation key v addr st).events, e ∈ st.events ∨ Q e := by
  intro e he
  simp only [processInterpolation, St.emit, setSlot, events_ite, ite_self] at he
  repeat' split at he
  all_goals try simp only [List.mem_append, List.mem_singleton] at he
  all_goals try casesm* _ ∨ _
  all_goals try exact Or.inl ‹_›
  all_goals subst_eqs
  all_goals exact Or.inr (hq _ _)

theorem events_shape_processPop (Q : Event → Prop) (key : String) (v : Val) (addr : Nat)
    (st : St) (hacc : Q (Event.popAccess (getF (hget st.heap addr) "pop")))
    (herr : Q (Event.errEvent "pop")) :
    ∀ e ∈ (processPop key v addr st).events, e ∈ st.events ∨ Q e := by
  intro e he
  simp only [processPop, St.emit, events_ite, ite_self] at he
  repeat' split at he
  all_goals try simp only [List.mem_append, List.mem_singleton] at he
  all_goals try casesm* _ ∨ _
  all_goals try exact Or.inl ‹_›
  all_goals subst_eqs
  all_goals first
    | exact Or.inr hacc
    | exact Or.inr herr

theorem events_shape_processPush (Q : Event → Prop) (key : String) (v : Val) (addr : Nat)
    (st : St) (hacc : Q (Event.pushAccess (getF (hget st.heap addr) "push")))
    (herr : Q (Event.errEvent "push")) :
    ∀ e ∈ (processPush key v addr st).events, e ∈ st.events ∨ Q e := by
  intro e he
  simp only [processPush, St.emit, events_ite, ite_self] at he
  repeat' split at he
  all_goals try simp only [List.mem_append, List.mem_singleton] at he
  all_goals try casesm* _ ∨ _
  all_goals try exact Or.inl ‹_›
  all_goals subst_eqs
  all_goals first
    | exact Or.inr hacc
    | exact Or.inr herr

theorem events_shape_runCallback (Q : Event → Prop) (cbk : CbKind) (cmd key : String) (st : St)
    (h1 : ∀ hp a c, Q (Event.hookOptions key hp a c))
    (h2 : ∀ hp a, Q (Event.checkDeprecated hp a))
    (h3 : ∀ hp a, Q (Event.hookDefault key hp a)) :
    ∀ e ∈ (runCallback cbk cmd key st).events, e ∈ st.events ∨ Q e := by
  intro e he
  cases cbk with
  | optionsCb snap =>
    simp only [runCallback, St.emit, List.append_assoc, List.mem_append,
      List.mem_singleton] at he
    rcases he with h | rfl | rfl
    · exact Or.inl h
    · exact Or.inr (h1 _ _ _)
    · exact Or.inr (h2 _ _)
  | defaultCb snap =>
    simp only [runCallback, St.emit, List.mem_append, List.mem_singleton] at he
    rcases he with h | rfl
    · exact Or.inl h
    · exact Or.inr (h3 _ _)

theorem shape_emit {Q : Event → Prop} (st : St) (e0 : Event) (hq : Q e0) :
    ∀ e ∈ (st.emit e0).events, e ∈ st.events ∨ Q e := by
  intro e he
  simp only [St.emit, List.mem_append, List.mem_singleton] at he
  rcases he with h | rfl
  · exact Or.inl h
  · exact Or.inr hq

/-- Composed trace shape of the six truthy-branch steps plus the per-visit
callback, for any event predicate true of everything those steps emit. -/
theorem events_shape_visitSteps (Q : Event → Prop) (env : Env) (cbk : CbKind)
    (cmd key : String) (v : Val) (addr : Nat) (s0 : St)
    (hup : ∀ i p, Q (Event.updateProps i p))
    (hec : ∀ w, Q (Event.ensureClass w))
    (herr : ∀ s, Q (Event.errEvent s))
    (hhook : ∀ k hp a c, Q (Event.hookOptions k hp a c))
    (hcheck : ∀ hp a, Q (Event.checkDeprecated hp a))
    (hdef : ∀ k hp a, Q (Event.hookDefault k hp a))
    (hpop : ∀ w, Q (Event.popAccess w))
    (hpush : ∀ w, Q (Event.pushAccess w)) :
    ∀ e ∈ (runCallback cbk cmd key (processAnimation key v addr
        (processInterpolation key v addr (processSearchBar key v addr
          (processButtonsPassProps key v (processImage env key v addr
            (processComponent key v addr s0))))))).events,
      e ∈ s0.events ∨ Q e := by
  unfold processAnimation
  refine shape_step (shape_step (shape_step (shape_step (shape_step (shape_step (shape_step
    (events_shape_processComponent Q key v addr s0 hec hup herr)
    (shape_of_events_eq (events_processImage env key v addr _)))
    (events_shape_processButtonsPassProps Q key v _ hup))
    (events_shape_processSearchBar Q key v addr _ (fun h a => hhook key h a "")))
    (events_shape_processInterpolation Q key v addr _ (fun h a => hhook key h a "")))
    (events_shape_processPush Q key v addr _ (hpush _) (herr _)))
    (shape_step (events_shape_processPop Q key v addr _ (hpop _) (herr _))
      (shape_of_events_eq (events_processSetStackRoot key v addr _))))
    (events_shape_runCallback Q cbk cmd key _ (fun hp a c => hhook key hp a c) hcheck
      (fun hp a => hdef key hp a))

theorem events_shape_visitKey_pass (env : Env) (cbk : CbKind) (cmd : String)
    (recurse : Nat → String → List String → St → St) (addr : Nat) (key : String)
    (pPath : String) (trail : List String) (st : St)
    (ht : "passProps" ∉ trail)
    (hrec : ∀ a p t s, "passProps" ∉ t →
      ∀ e ∈ (recurse a p t s).events, e ∈ s.events ∨ noAncestorPassProps e = true) :
    ∀ e ∈ (visitKey env cbk cmd recurse addr key pPath trail st).events,
      e ∈ st.events ∨ noAncestorPassProps e = true := by
  have hv : noAncestorPassProps (Event.visitE (trail ++ [key])) = true := by
    simp [noAncestorPassProps, List.dropLast_concat, ht]
  have hpc : ∀ pa w, noAncestorPassProps (Event.procCall (trail ++ [key]) pa w) = true := by
    intro pa w
    simp [noAncestorPassProps, List.dropLast_concat, ht]
  have hpre : ∀ e ∈ (processColor env key (getF (hget st.heap addr) key) addr
      (processWithRegisteredProcessor env key (getF (hget st.heap addr) key) addr
        (resolveObjectPath key pPath) cmd (trail ++ [key])
        (st.emit (Event.visitE (trail ++ [key]))))).events,
      e ∈ st.events ∨ noAncestorPassProps e = true := by
    refine shape_step (shape_step (shape_emit st _ hv) ?_)
      (shape_of_events_eq (events_processColor env key _ addr _))
    exact events_shape_processWithRegisteredProcessor _ env key _ addr _ cmd _ _ (hpc _)
  simp only [visitKey]
  split
  · split
    · split
      · exact shape_step hpre
          (events_shape_visitSteps (fun e => noAncestorPassProps e = true) env cbk cmd key _
            addr _ (fun _ _ => rfl) (fun _ => rfl) (fun _ => rfl) (fun _ _ _ _ => rfl)
            (fun _ _ => rfl) (fun _ _ _ => rfl) (fun _ => rfl) (fun _ => rfl))
      · rename_i hkp
        refine shape_step (shape_step hpre
          (events_shape_visitSteps (fun e => noAncestorPassProps e = true) env cbk cmd key _
            addr _ (fun _ _ => rfl) (fun _ => rfl) (fun _ => rfl) (fun _ _ _ _ => rfl)
            (fun _ _ => rfl) (fun _ _ _ => rfl) (fun _ => rfl) (fun _ => rfl)))
          (hrec _ _ _ _ ?_)
        simp only [List.mem_append, List.mem_singleton]
        rintro (h | rfl)
        · exact ht h
        · exact hkp rfl
    all_goals exact (shape_step hpre
      (events_shape_visitSteps (fun e => noAncestorPassProps e = true) env cbk cmd key _ addr _
        (fun _ _ => rfl) (fun _ => rfl) (fun _ => rfl) (fun _ _ _ _ => rfl)
        (fun _ _ => rfl) (fun _ _ _ => rfl) (fun _ => rfl) (fun _ => rfl)))
  · exact hpre

theorem events_shape_processObject_pass (env : Env) (cbk : CbKind) (cmd : String) :
    ∀ (fuel addr : Nat) (pPath : String) (trail : List String) (st : St),
      "passProps" ∉ trail →
      ∀ e ∈ (processObject env cbk cmd fuel addr pPath trail st).events,
        e ∈ st.events ∨ noAncestorPassProps e = true := by
  intro fuel
  induction fuel with
  | zero => intro addr pPath trail st ht e he; exact Or.inl he
  | succ n ih =>
    intro addr pPath trail st ht
    refine events_shape_foldl _ _ ?_ _ st
    intro s k
    exact events_shape_visitKey_pass env cbk cmd _ addr k pPath trail s ht
      (fun a p t s2 ht2 => ih a p t s2 ht2)

/-- Composed trace shape of the truthy-branch steps without the pop/push
transforms (used when the visited key triggers neither). -/
theorem events_shape_visitStepsNoAnim (Q : Event → Prop) (env : Env) (cbk : CbKind)
    (cmd key : String) (v : Val) (addr : Nat) (s0 : St)
    (hup : ∀ i p, Q (Event.updateProps i p))
    (hec : ∀ w, Q (Event.ensureClass w))
    (herr : ∀ s, Q (Event.errEvent s))
    (hhook : ∀ k hp a c, Q (Event.hookOptions k hp a c))
    (hcheck : ∀ hp a, Q (Event.checkDeprecated hp a))
    (hdef : ∀ k hp a, Q (Event.hookDefault k hp a)) :
    ∀ e ∈ (runCallback cbk cmd key (processSetStackRoot key v addr
        (processInterpolation key v addr (processSearchBar key v addr
          (processButtonsPassProps key v (processImage env key v addr
            (processComponent key v addr s0))))))).events,
      e ∈ s0.events ∨ Q e :=
  shape_step (shape_step (shape_step (shape_step (shape_step (shape_step
    (events_shape_processComponent Q key v addr s0 hec hup herr)
    (shape_of_events_eq (events_processImage env key v addr _)))
    (events_shape_processButtonsPassProps Q key v _ hup))
    (events_shape_processSearchBar Q key v addr _ (fun h a => hhook key h a "")))
    (events_shape_processInterpolation Q key v addr _ (fun h a => hhook key h a "")))
    (shape_of_events_eq (events_processSetStackRoot key v addr _)))
    (events_shape_runCallback Q cbk cmd key _ (fun hp a c => hhook key hp a c) hcheck
      (fun hp a => hdef key hp a))

theorem events_shape_visitKey_acc (env : Env) (cbk : CbKind) (cmd : String)
    (recurse : Nat → String → List String → St → St) (addr : Nat) (key : String)
    (pPath : String) (trail : List String) (st : St)
    (hp : env.getProcessors = fun _ => none)
    (hrec : ∀ a p t s, ∀ e ∈ (recurse a p t s).events, e ∈ s.events ∨ animAccessTruthy e = true) :
    ∀ e ∈ (visitKey env cbk cmd recurse addr key pPath trail st).events,
      e ∈ st.events ∨ animAccessTruthy e = true := by
  have hreg : ∀ k v a pa c t s, processWithRegisteredProcessor env k v a pa c t s = s :=
    fun k v a pa c t s =>
      processWithRegisteredProcessor_none env k v a pa c t s (by rw [hp])
  simp only [visitKey, hreg]
  split
  · rename_i hT
    by_cases hkpop : key = "pop"
    · subst hkpop
      have hcomp : ∀ v a s, processComponent "pop" v a s = s :=
        fun v a s => processComponent_id _ v a s (by decide)
      have himg : ∀ v a s, processImage env "pop" v a s = s :=
        fun v a s => processImage_id env _ v a s (by decide)
      have hbtn : ∀ v s, processButtonsPassProps "pop" v s = s :=
        fun v s => processButtonsPassProps_id _ v s (by decide)
      have hsb : ∀ v a s, processSearchBar "pop" v a s = s :=
        fun v a s => processSearchBar_id _ v a s (by decide)
      have hint : ∀ v a s, processInterpolation "pop" v a s = s :=
        fun v a s => processInterpolation_id _ v a s (by decide)
      have hcol : ∀ v a s, processColor env "pop" v a s = s :=
        fun v a s => processColor_id env _ v a s (by decide)
      have hpsh : ∀ v a s, processPush "pop" v a s = s :=
        fun v a s => processPush_id _ v a s (by decide)
      have hssr : ∀ v a s, processSetStackRoot "pop" v a s = s :=
        fun v a s => processSetStackRoot_id _ v a s (by decide)
      simp only [processAnimation, hcomp, himg, hbtn, hsb, hint, hcol, hpsh, hssr]
      have hchain : ∀ e ∈ (runCallback cbk cmd "pop" (processPop "pop"
          (getF (hget st.heap addr) "pop") addr
          (st.emit (Event.visitE (trail ++ ["pop"]))))).events,
          e ∈ st.events ∨ animAccessTruthy e = true :=
        shape_step (shape_step (shape_emit st (Event.visitE (trail ++ ["pop"])) rfl)
          (events_shape_processPop (fun e => animAccessTruthy e = true) "pop" _ addr _ hT rfl))
          (events_shape_runCallback _ cbk cmd "pop" _ (fun _ _ _ => rfl) (fun _ _ => rfl)
            (fun _ _ => rfl))
      split
      · rw [if_neg (by decide : ¬ ("pop" : String) = "passProps")]
        exact shape_step hchain (hrec _ _ _ _)
      · exact hchain
    · by_cases hkpush : key = "push"
      · subst hkpush
        have hcomp : ∀ v a s, processComponent "push" v a s = s :=
          fun v a s => processComponent_id _ v a s (by decide)
        have himg : ∀ v a s, processImage env "push" v a s = s :=
          fun v a s => processImage_id env _ v a s (by decide)
        have hbtn : ∀ v s, processButtonsPassProps "push" v s = s :=
          fun v s => processButtonsPassProps_id _ v s (by decide)
        have hsb : ∀ v a s, processSearchBar "push" v a s = s :=
          fun v a s => processSearchBar_id _ v a s (by decide)
        have hint : ∀ v a s, processInterpolation "push" v a s = s :=
          fun v a s => processInterpolation_id _ v a s (by decide)
        have hcol : ∀ v a s, processColor env "push" v a s = s :=
          fun v a s => processColor_id env _ v a s (by decide)
        have hpp : ∀ v a s, processPop "push" v a s = s :=
          fun v a s => processPop_id _ v a s (by decide)
        have hssr : ∀ v a s, processSetStackRoot "push" v a s = s :=
          fun v a s => processSetStackRoot_id _ v a s (by decide)
        simp only [processAnimation, hcomp, himg, hbtn, hsb, hint, hcol, hpp, hssr]
        have hchain : ∀ e ∈ (runCallback cbk cmd "push" (processPush "push"
            (getF (hget st.heap addr) "push") addr
            (st.emit (Event.visitE (trail ++ ["push"]))))).events,
            e ∈ st.events ∨ animAccessTruthy e = true :=
          shape_step (shape_step (shape_emit st (Event.visitE (trail ++ ["push"])) rfl)
            (events_shape_processPush (fun e => animAccessTruthy e = true) "push" _ addr _ hT rfl))
            (events_shape_runCallback _ cbk cmd "push" _ (fun _ _ _ => rfl) (fun _ _ => rfl)
              (fun _ _ => rfl))
        split
        · rw [if_neg (by decide : ¬ ("push" : String) = "passProps")]
          exact shape_step hchain (hrec _ _ _ _)
        · exact hchain
      · have hpopid : ∀ v a s, processPop key v a s = s :=
          fun v a s => processPop_id _ v a s hkpop
        have hpushid : ∀ v a s, processPush key v a s = s :=
          fun v a s => processPush_id _ v a s hkpush
        simp only [processAnimation, hpopid, hpushid]
        have hchain : ∀ e ∈ (runCallback cbk cmd key (processSetStackRoot key
            (getF (hget st.heap addr) key) addr (processInterpolation key
            (getF (hget st.heap addr) key) addr (processSearchBar key
            (getF (hget st.heap addr) key) addr (processButtonsPassProps key
            (getF (hget st.heap addr) key) (processImage env key
            (getF (hget st.heap addr) key) addr (processComponent key
            (getF (hget st.heap addr) key) addr (processColor env key
            (getF (hget st.heap addr) key) addr
            (st.emit (Event.visitE (trail ++ [key]))))))))))).events,
            e ∈ st.events ∨ animAccessTruthy e = true :=
          shape_step (shape_step (shape_emit st (Event.visitE (trail ++ [key])) rfl)
            (shape_of_events_eq (events_processColor env key _ addr _)))
            (events_shape_visitStepsNoAnim (fun e => animAccessTruthy e = true) env cbk cmd key
              _ addr _ (fun _ _ => rfl) (fun _ => rfl) (fun _ => rfl) (fun _ _ _ _ => rfl)
              (fun _ _ => rfl) (fun _ _ _ => rfl))
        split
        · split
          · exact hchain
          · exact shape_step hchain (hrec _ _ _ _)
        · exact hchain
  · exact shape_step (shape_emit st (Event.visitE (trail ++ [key])) rfl)
      (shape_of_events_eq (events_processColor env key _ addr _))

theorem events_shape_processObject_acc (env : Env) (cbk : CbKind) (cmd : String)
    (hp : env.getProcessors = fun _ => none) :
    ∀ (fuel addr : Nat) (pPath : String) (trail : List String) (st : St),
      ∀ e ∈ (processObject env cbk cmd fuel addr pPath trail st).events,
        e ∈ st.events ∨ animAccessTruthy e = true := by
  intro fuel
  induction fuel with
  | zero => intro addr pPath trail st e he; exact Or.inl he
  | succ n ih =>
    intro addr pPath trail st
    refine events_shape_foldl _ _ ?_ _ st
    intro s k
    exact events_shape_visitKey_acc env cbk cmd _ addr k pPath trail s hp
      (fun a p t s2 => ih a p t s2)

/-- On a falsy enumerated value the per-key body is exactly the visit
marker, the registry step and the color transform: nothing else runs. -/
theorem visitKey_falsy_eq (env : Env) (cbk : CbKind) (cmd : String)
    (recurse : Nat → String → List String → St → St) (addr : Nat) (key pPath : String)
    (trail : List String) (st : St)
    (hfalsy : truthy (getF (hget st.heap addr) key) = false) :
    visitKey env cbk cmd recurse addr key pPath trail st
      = processColor env key (getF (hget st.heap addr) key) addr
          (processWithRegisteredProcessor env key (getF (hget st.heap addr) key) addr
            (resolveObjectPath key pPath) cmd (trail ++ [key])
            (st.emit (Event.visitE (trail ++ [key])))) := by
  simp only [visitKey, hfalsy, Bool.false_eq_true, if_false]

/-- The defaults object only reads legacy sibling fields, so writing the
searchBar slot itself does not change it. -/
theorem deprecatedSearchBarOptions_setF_searchBar (o : Obj) (w : Val) :
    deprecatedSearchBarOptions (setF o "searchBar" w) = deprecatedSearchBarOptions o := by
  simp only [deprecatedSearchBarOptions]
  rw [getF_setF_of_ne _ _ _ _ (by decide), getF_setF_of_ne _ _ _ _ (by decide),
    getF_setF_of_ne _ _ _ _ (by decide), getF_setF_of_ne _ _ _ _ (by decide),
    getF_setF_of_ne _ _ _ _ (by decide)]

/-- Merging over the search-bar defaults is idempotent: the defaults bind
every one of their keys, so a second merge reads back exactly the values
the first merge wrote. -/
theorem spreadTwo_dso_idem (o : Obj) (v : List (String × Val)) :
    spreadTwo (deprecatedSearchBarOptions o) (spreadTwo (deprecatedSearchBarOptions o) v)
      = spreadTwo (deprecatedSearchBarOptions o) v := by
  simp [spreadTwo, deprecatedSearchBarOptions, lookupF, hasK, List.filter_append,
    List.filter_filter]

/-! ### Claim theorems: statuses of C1 through C10 -/

/-- C1, counterexample. Walking \x7b color: "red" \x7d with two processors
registered for path color (the first returns blue, the second green), the
trace shows both processors received the enumerated value red: the second
did not receive the first processor's output blue; and the color transform
produced the service result for the original red, not for the registry
output green. The claim, which asserts each later processor receives the
previous one's output and the built-in transforms operate on the registry
output, is therefore false on this input. -/
theorem registry_chaining_counterexample :
    procInputs c1run.events = [vstr "red", vstr "red"]
    ∧ slotOf c1run 0 "color" = vstr "native:red"
    ∧ (vstr "red" : Val) ≠ vstr "blue"
    ∧ (vstr "native:red" : Val) ≠ vstr "native:green" := by decide

/-- C1, amended. Every registered processor is called with the value the
walk enumerated for the key (traced verbatim, one call per processor), and
the slot afterwards holds the last processor's output applied to that same
enumerated value: writes to the slot are seen only by steps that re-read
the slot (the interpolation rewrite and the recursion decision), never as
the input of a later processor or built-in transform. -/
theorem registry_processors_receive_enumerated_value (env : Env) (key : String) (value : Val)
    (addr : Nat) (path cmd : String) (trail : List String) (st : St)
    (ps : List (Val → String → Val)) (p : Val → String → Val)
    (hps : env.getProcessors path = some (ps ++ [p])) (ha : addr < st.heap.length) :
    (processWithRegisteredProcessor env key value addr path cmd trail st).events
      = st.events ++ (ps ++ [p]).map (fun _ => Event.procCall trail path value)
    ∧ slotOf (processWithRegisteredProcessor env key value addr path cmd trail st) addr key
      = p value cmd := by
  have hlen : ∀ (l : List (Val → String → Val)) (s : St),
      (l.foldl (fun s2 q => setSlot (s2.emit (Event.procCall trail path value)) addr key
        (q value cmd)) s).heap.length = s.heap.length := by
    intro l
    induction l with
    | nil => intro s; rfl
    | cons q t ih => intro s; simp only [List.foldl_cons]; rw [ih]; simp [setSlot, St.emit, hset]
  have hev : ∀ (l : List (Val → String → Val)) (s : St),
      (l.foldl (fun s2 q => setSlot (s2.emit (Event.procCall trail path value)) addr key
        (q value cmd)) s).events
        = s.events ++ l.map (fun _ => Event.procCall trail path value) := by
    intro l
    induction l with
    | nil => intro s; simp
    | cons q t ih => intro s; simp only [List.foldl_cons]; rw [ih]; simp [setSlot, St.emit]
  constructor
  · simp only [processWithRegisteredProcessor, hps]
    exact hev _ st
  · simp only [processWithRegisteredProcessor, hps]
    rw [List.foldl_append]
    simp only [List.foldl_cons, List.foldl_nil]
    refine slotOf_setSlot_self _ addr key _ ?_
    exact lt_of_lt_of_eq ha (hlen ps st).symm

/-- Witness for the amended C1 theorem at the two-processor registry. -/
theorem registry_processors_receive_enumerated_value_witness :
    (envTwoProcs.getProcessors "color" = some ([procBlue] ++ [procGreen])
      ∧ 0 < stW.heap.length)
    ∧ ((processWithRegisteredProcessor envTwoProcs "color" (vstr "red") 0 "color" "cmd"
          ["color"] stW).events
        = stW.events ++ ([procBlue] ++ [procGreen]).map
            (fun _ => Event.procCall ["color"] "color" (vstr "red"))
      ∧ slotOf (processWithRegisteredProcessor envTwoProcs "color" (vstr "red") 0 "color" "cmd"
          ["color"] stW) 0 "color" = procGreen (vstr "red") "cmd") :=
  ⟨⟨rfl, by decide⟩,
    registry_processors_receive_enumerated_value envTwoProcs "color" (vstr "red") 0 "color"
      "cmd" ["color"] stW [procBlue] procGreen rfl (by decide)⟩

/-- C2, counterexample. Walking \x7b push: \x7b someAnim: 1 \x7d \x7d, the
push entry keeps its original object (same reference, someAnim still
bound) and merely gains a content field equal to
\x7b enter: undefined \x7d —`enter` is set to the value's (absent)
`content` property, not to the whole original value. The claim predicts a
push entry whose only key is content with enter bound to the entire
original value \x7b someAnim: 1 \x7d; the final shape refutes it. -/
theorem push_wrap_counterexample :
    slotOf c2run 0 "push" = vref 1
    ∧ (hget c2run.heap 1).fields = [("someAnim", vnum 1), ("content", vref 3)]
    ∧ (hget c2run.heap 3).fields = [("enter", vundef)]
    ∧ (hget c2run.heap 1).fields.map Prod.fst ≠ ["content"]
    ∧ getF (hget c2run.heap 3) "enter" ≠ vref 1 := by decide

/-- C2, amended. For key push with neither content.enter nor content.exit
present on the value, the transform mutates the object already stored in
the parent's push slot: its content field is set to a freshly allocated
object binding enter to the value's current content property (undefined
when absent); every other field of the push object, and every other heap
object, is untouched, and the only trace event is the non-null access.
When content.enter or content.exit is present the transform is the
identity. -/
theorem processPush_sets_content_from_value_content (st : St) (v : Val) (addr p : Nat)
    (hslot : getF (hget st.heap addr) "push" = vref p)
    (hp : p < st.heap.length)
    (hno1 : hasContentKey st.heap v "enter" = false)
    (hno2 : hasContentKey st.heap v "exit" = false) :
    (processPush "push" v addr st).heap.length = st.heap.length + 1
    ∧ hget (processPush "push" v addr st).heap p
        = setF (hget st.heap p) "content" (vref st.heap.length)
    ∧ hget (processPush "push" v addr st).heap st.heap.length
        = ⟨false, [("enter", propRead st.heap v "content")]⟩
    ∧ (∀ q, q < st.heap.length → q ≠ p →
        hget (processPush "push" v addr st).heap q = hget st.heap q)
    ∧ (processPush "push" v addr st).events = st.events ++ [Event.pushAccess (vref p)]
    ∧ (∀ w, (hasContentKey st.heap w "enter" = true ∨ hasContentKey st.heap w "exit" = true) →
        processPush "push" w addr st = st) := by
  have hred : processPush "push" v addr st
      = { St.emit st (Event.pushAccess (vref p)) with
          heap := hset (st.heap ++ [⟨false, [("enter", propRead st.heap v "content")]⟩]) p
            (setF (hget (st.heap ++ [⟨false, [("enter", propRead st.heap v "content")]⟩]) p)
              "content" (vref st.heap.length)) } := by
    simp [processPush, hno1, hno2, hslot, halloc, St.emit]
  refine ⟨?_, ?_, ?_, ?_, ?_, ?_⟩
  · rw [hred]
    simp [hset, St.emit]
  · rw [hred]
    have hplen : p < (st.heap ++ [(⟨false, [("enter", propRead st.heap v "content")]⟩ : Obj)]).length := by
      simp
      omega
    rw [show ({ St.emit st (Event.pushAccess (vref p)) with
        heap := hset (st.heap ++ [⟨false, [("enter", propRead st.heap v "content")]⟩]) p
          (setF (hget (st.heap ++ [⟨false, [("enter", propRead st.heap v "content")]⟩]) p)
            "content" (vref st.heap.length)) } : St).heap
      = hset (st.heap ++ [⟨false, [("enter", propRead st.heap v "content")]⟩]) p
          (setF (hget (st.heap ++ [⟨false, [("enter", propRead st.heap v "content")]⟩]) p)
            "content" (vref st.heap.length)) from rfl]
    rw [hget_hset_self _ _ _ hplen, hget_append_lt _ _ _ hp]
  · rw [hred]
    have hne : st.heap.length ≠ p := fun h => absurd (h ▸ hp) (lt_irrefl _)
    rw [show ({ St.emit st (Event.pushAccess (vref p)) with
        heap := hset (st.heap ++ [⟨false, [("enter", propRead st.heap v "content")]⟩]) p
          (setF (hget (st.heap ++ [⟨false, [("enter", propRead st.heap v "content")]⟩]) p)
            "content" (vref st.heap.length)) } : St).heap
      = hset (st.heap ++ [⟨false, [("enter", propRead st.heap v "content")]⟩]) p
          (setF (hget (st.heap ++ [⟨false, [("enter", propRead st.heap v "content")]⟩]) p)
            "content" (vref st.heap.length)) from rfl]
    rw [hget_hset_of_ne _ _ _ _ (fun h => hne h.symm), hget_append_len]
  · intro q hq hqp
    rw [hred]
    rw [show ({ St.emit st (Event.pushAccess (vref p)) with
        heap := hset (st.heap ++ [⟨false, [("enter", propRead st.heap v "content")]⟩]) p
          (setF (hget (st.heap ++ [⟨false, [("enter", propRead st.heap v "content")]⟩]) p)
            "content" (vref st.heap.length)) } : St).heap
      = hset (st.heap ++ [⟨false, [("enter", propRead st.heap v "content")]⟩]) p
          (setF (hget (st.heap ++ [⟨false, [("enter", propRead st.heap v "content")]⟩]) p)
            "content" (vref st.heap.length)) from rfl]
    rw [hget_hset_of_ne _ _ _ _ (fun h => hqp h.symm), hget_append_lt _ _ _ hq]
  · rw [hred]
    rfl
  · intro w hw
    rcases hw with hw | hw <;> simp [processPush, hw]

/-- Witness for the amended C2 theorem. -/
theorem processPush_sets_content_from_value_content_witness :
    (getF (hget stPush.heap 0) "push" = vref 1 ∧ 1 < stPush.heap.length
      ∧ hasContentKey stPush.heap (vref 1) "enter" = false
      ∧ hasContentKey stPush.heap (vref 1) "exit" = false)
    ∧ ((processPush "push" (vref 1) 0 stPush).heap.length = stPush.heap.length + 1
      ∧ hget (processPush "push" (vref 1) 0 stPush).heap 1
          = setF (hget stPush.heap 1) "content" (vref stPush.heap.length)
      ∧ hget (processPush "push" (vref 1) 0 stPush).heap stPush.heap.length
          = ⟨false, [("enter", propRead stPush.heap (vref 1) "content")]⟩
      ∧ (∀ q, q < stPush.heap.length → q ≠ 1 →
          hget (processPush "push" (vref 1) 0 stPush).heap q = hget stPush.heap q)
      ∧ (processPush "push" (vref 1) 0 stPush).events
          = stPush.events ++ [Event.pushAccess (vref 1)]
      ∧ (∀ w, (hasContentKey stPush.heap w "enter" = true
            ∨ hasContentKey stPush.heap w "exit" = true) →
          processPush "push" w 0 stPush = stPush)) :=
  ⟨⟨by decide, by decide, by decide, by decide⟩,
    processPush_sets_content_from_value_content stPush (vref 1) 0 1 (by decide) (by decide)
      (by decide) (by decide)⟩

/-- C3, counterexample. Walking \x7b a: \x7b color: null, x: 1 \x7d \x7d
from processOptions, the callback for key x (fired after the nested color
slot was rewritten) observes, through the snapshot at address 2 recorded
in the trace, a.color = NoColor — while before the walk that same read
gave null. The snapshot is therefore affected by a mutation performed
earlier in the same walk, refuting the claim that it reflects the
pre-mutation shape at every depth. -/
theorem snapshot_counterexample :
    Event.hookOptions "x" c3obsHeap 2 "cmd" ∈ c3run.events
    ∧ snapView c3obsHeap 2 "a" "color" = vstr "NoColor"
    ∧ snapView c3initHeap 0 "a" "color" = vnull
    ∧ (vstr "NoColor" : Val) ≠ vnull := by decide

/-- C3, amended. The snapshot handed to the deprecation callbacks is a
lodash shallow clone: processOptions walks the live root against a freshly
allocated snapshot object that is identical to the root object at walk
start — in particular its entries reference the same nested child objects,
so mutations inside shared nested nodes remain observable through it, and
only replacements of the root's own top-level slots are not. -/
theorem clone_is_shallow (env : Env) (fuel addr : Nat) (cmd : String) (st : St) :
    processOptions env fuel addr cmd st
      = processObject env (CbKind.optionsCb st.heap.length) cmd fuel addr "" []
          { st with heap := st.heap ++ [hget st.heap addr] }
    ∧ hget (st.heap ++ [hget st.heap addr]) st.heap.length = hget st.heap addr
    ∧ (hget (st.heap ++ [hget st.heap addr]) st.heap.length).fields
        = (hget st.heap addr).fields :=
  ⟨rfl, hget_append_len _ _, congrArg Obj.fields (hget_append_len _ _)⟩

/-- C4, counterexample. Walking \x7b a: 1 \x7d with a registered processor
for path a that replaces the value with false: after the registry step and
the color transform the slot holds false (falsy), yet the deprecation
callback still fired for key a — the short-circuit tested the enumerated
value 1, not the replaced slot value. This refutes the claim that a falsy
post-replacement value skips the callback. -/
theorem falsy_short_circuit_counterexample :
    truthy (slotOf c4run 0 "a") = false
    ∧ procInputs c4run.events = [vnum 1]
    ∧ Event.hookOptions "a" c4run.heap 1 "cmd" ∈ c4run.events := by decide

/-- C4, amended. The falsy short-circuit keys on the value enumerated at
the start of the visit: whenever that value is falsy the whole per-key
body is exactly the visit marker, the registry step and the color
transform — regardless of what the registry wrote into the slot — and
conversely a truthy enumerated value runs the remaining transforms even if
a processor replaced the slot with something falsy. -/
theorem falsy_skip_uses_enumerated_value (env : Env) (cbk : CbKind) (cmd : String)
    (recurse : Nat → String → List String → St → St) (addr : Nat) (key pPath : String)
    (trail : List String) (st : St)
    (hfalsy : truthy (getF (hget st.heap addr) key) = false) :
    visitKey env cbk cmd recurse addr key pPath trail st
      = processColor env key (getF (hget st.heap addr) key) addr
          (processWithRegisteredProcessor env key (getF (hget st.heap addr) key) addr
            (resolveObjectPath key pPath) cmd (trail ++ [key])
            (st.emit (Event.visitE (trail ++ [key])))) :=
  visitKey_falsy_eq env cbk cmd recurse addr key pPath trail st hfalsy

/-- Witness for the amended C4 theorem. -/
theorem falsy_skip_uses_enumerated_value_witness :
    truthy (getF (hget stFalsy.heap 0) "a") = false
    ∧ visitKey envNone (CbKind.optionsCb 1) "cmd" recNone 0 "a" "" [] stFalsy
      = processColor envNone "a" (getF (hget stFalsy.heap 0) "a") 0
          (processWithRegisteredProcessor envNone "a" (getF (hget stFalsy.heap 0) "a") 0
            (resolveObjectPath "a" "") "cmd" (([] : List String) ++ ["a"])
            (stFalsy.emit (Event.visitE (([] : List String) ++ ["a"])))) :=
  ⟨by decide,
    falsy_skip_uses_enumerated_value envNone (CbKind.optionsCb 1) "cmd" recNone 0 "a" "" []
      stFalsy (by decide)⟩

/-- C5, confirmed. For key searchBar with value true the transform stores
a freshly allocated non-boolean object that is exactly the defaults object
with visible overridden to true: hideOnScroll and hideTopBarOnFocus come
from the legacy siblings via nullish coalescing (false when the sibling is
absent), placeholder likewise with the empty string, backgroundColor and
tintColor are the raw siblings, obscuresBackgroundDuringPresentation is
false; and the deprecation hook is triggered once. -/
theorem searchBar_true_normalization (st : St) (addr : Nat) (ha : addr < st.heap.length) :
    slotOf (processSearchBar "searchBar" (vbool true) addr st) addr "searchBar"
      = vref st.heap.length
    ∧ (hget (processSearchBar "searchBar" (vbool true) addr st).heap st.heap.length).fields
      = [("visible", vbool true),
         ("hideOnScroll",
           coalesce (getF (hget st.heap addr) "searchBarHiddenWhenScrolling") (vbool false)),
         ("hideTopBarOnFocus",
           coalesce (getF (hget st.heap addr) "hideNavBarOnFocusSearchBar") (vbool false)),
         ("obscuresBackgroundDuringPresentation", vbool false),
         ("backgroundColor", getF (hget st.heap addr) "searchBarBackgroundColor"),
         ("tintColor", getF (hget st.heap addr) "searchBarTintColor"),
         ("placeholder", coalesce (getF (hget st.heap addr) "searchBarPlaceholder") (vstr ""))]
    ∧ (∀ b, slotOf (processSearchBar "searchBar" (vbool true) addr st) addr "searchBar"
        ≠ vbool b)
    ∧ (processSearchBar "searchBar" (vbool true) addr st).events
      = st.events ++ [Event.hookOptions "searchBar" st.heap addr ""] := by
  have hne : addr ≠ st.heap.length := Nat.ne_of_lt ha
  have hslot : slotOf (processSearchBar "searchBar" (vbool true) addr st) addr "searchBar"
      = vref st.heap.length := by
    simp only [processSearchBar, halloc, St.emit, if_true]
    exact slotOf_setSlot_self _ addr _ _ (by simp; omega)
  have hfields : (hget (processSearchBar "searchBar" (vbool true) addr st).heap
      st.heap.length).fields
      = spreadTwo (deprecatedSearchBarOptions (hget st.heap addr)) [("visible", vbool true)] := by
    simp only [processSearchBar, halloc, setSlot, St.emit, if_true]
    rw [hget_hset_of_ne _ _ _ _ hne, hget_append_len]
  refine ⟨hslot, ?_, ?_, ?_⟩
  · rw [hfields]
    simp [spreadTwo, deprecatedSearchBarOptions, lookupF, hasK]
  · intro b
    rw [hslot]
    simp
  · simp [processSearchBar, setSlot, St.emit, halloc]

/-- Witness for the C5 theorem. -/
theorem searchBar_true_normalization_witness :
    0 < stSb.heap.length
    ∧ (slotOf (processSearchBar "searchBar" (vbool true) 0 stSb) 0 "searchBar"
        = vref stSb.heap.length
      ∧ (hget (processSearchBar "searchBar" (vbool true) 0 stSb).heap stSb.heap.length).fields
        = [("visible", vbool true),
           ("hideOnScroll",
             coalesce (getF (hget stSb.heap 0) "searchBarHiddenWhenScrolling") (vbool false)),
           ("hideTopBarOnFocus",
             coalesce (getF (hget stSb.heap 0) "hideNavBarOnFocusSearchBar") (vbool false)),
           ("obscuresBackgroundDuringPresentation", vbool false),
           ("backgroundColor", getF (hget stSb.heap 0) "searchBarBackgroundColor"),
           ("tintColor", getF (hget stSb.heap 0) "searchBarTintColor"),
           ("placeholder", coalesce (getF (hget stSb.heap 0) "searchBarPlaceholder") (vstr ""))]
      ∧ (∀ b, slotOf (processSearchBar "searchBar" (vbool true) 0 stSb) 0 "searchBar"
          ≠ vbool b)
      ∧ (processSearchBar "searchBar" (vbool true) 0 stSb).events
        = stSb.events ++ [Event.hookOptions "searchBar" stSb.heap 0 ""]) :=
  ⟨by decide, searchBar_true_normalization stSb 0 (by decide)⟩

/-- C6, confirmed. For key interpolation with a string value the transform
fires the standard deprecation hook exactly once (a single hook event is
appended) and replaces the slot with a fresh object whose type field holds
whatever the node's slot currently holds — the source reads options[key],
not its value parameter, so it captures anything the registry step already
wrote; a non-string value leaves the state untouched. (The walker's
per-visit callback separately invokes the hook for every visited key; the
single firing stated here is the one the transform itself performs, which
is how the specification's section 4.9 reconciles the two call sites.) -/
theorem interpolation_string_normalization (st : St) (addr : Nat) (s : String)
    (ha : addr < st.heap.length) :
    (processInterpolation "interpolation" (vstr s) addr st).events
      = st.events ++ [Event.hookOptions "interpolation" st.heap addr ""]
    ∧ slotOf (processInterpolation "interpolation" (vstr s) addr st) addr "interpolation"
      = vref st.heap.length
    ∧ (hget (processInterpolation "interpolation" (vstr s) addr st).heap st.heap.length).fields
      = [("type", getF (hget st.heap addr) "interpolation")]
    ∧ (∀ v, isString v = false → processInterpolation "interpolation" v addr st = st) := by
  have hne : addr ≠ st.heap.length := Nat.ne_of_lt ha
  refine ⟨?_, ?_, ?_, ?_⟩
  · simp [processInterpolation, setSlot, St.emit, halloc, isString]
  · simp only [processInterpolation, halloc, St.emit, isString, if_true]
    exact slotOf_setSlot_self _ addr _ _ (by simp; omega)
  · simp only [processInterpolation, halloc, setSlot, St.emit, isString, if_true]
    rw [hget_hset_of_ne _ _ _ _ hne, hget_append_len]
  · intro v hv
    simp [processInterpolation, hv]

/-- Witness for the C6 theorem. -/
theorem interpolation_string_normalization_witness :
    0 < stInt.heap.length
    ∧ ((processInterpolation "interpolation" (vstr "easeIn") 0 stInt).events
        = stInt.events ++ [Event.hookOptions "interpolation" stInt.heap 0 ""]
      ∧ slotOf (processInterpolation "interpolation" (vstr "easeIn") 0 stInt) 0 "interpolation"
        = vref stInt.heap.length
      ∧ (hget (processInterpolation "interpolation" (vstr "easeIn") 0 stInt).heap
          stInt.heap.length).fields
        = [("type", getF (hget stInt.heap 0) "interpolation")]
      ∧ (∀ v, isString v = false →
          processInterpolation "interpolation" v 0 stInt = stInt)) :=
  ⟨by decide, interpolation_string_normalization stInt 0 "easeIn" (by decide)⟩

/-- C7, counterexample. Walking \x7b color: undefined \x7d (the key
present with an absent value), the slot ends up holding the color-service
result for undefined, not the NoColor sentinel: the source tests
value === null strictly, so only null produces the sentinel. This refutes
the claim that a null-or-absent value is replaced by NoColor. -/
theorem color_undefined_counterexample :
    slotOf c7run 0 "color" = vstr "native:?"
    ∧ envNone.toNativeColor vundef = vstr "native:?"
    ∧ (vstr "native:?" : Val) ≠ vstr "NoColor" := by decide

/-- C7, amended. For a key equal to color or ending in Color the transform
always rewrites the slot — NoColor exactly when the enumerated value is
strictly null, the color-service result otherwise (undefined included) —
touching no other key and emitting nothing; a key failing the name test is
untouched; and the transform runs even for falsy values, because a falsy
enumerated value short-circuits the visit only after the registry and
color steps. -/
theorem processColor_null_sentinel_else_service (env : Env) (key : String) (v : Val)
    (addr : Nat) (st : St) :
    ((decide (key = "color") || jsEndsWith key "Color") = true → addr < st.heap.length →
      slotOf (processColor env key v addr st) addr key
        = (if v = vnull then vstr "NoColor" else env.toNativeColor v)
      ∧ (∀ k2, k2 ≠ key → slotOf (processColor env key v addr st) addr k2 = slotOf st addr k2)
      ∧ (processColor env key v addr st).events = st.events)
    ∧ ((decide (key = "color") || jsEndsWith key "Color") = false →
        processColor env key v addr st = st)
    ∧ (∀ (cbk : CbKind) (cmd : String)
        (recurse : Nat → String → List String → St → St) (pPath : String)
        (trail : List String),
        truthy (getF (hget st.heap addr) key) = false →
        visitKey env cbk cmd recurse addr key pPath trail st
          = processColor env key (getF (hget st.heap addr) key) addr
              (processWithRegisteredProcessor env key (getF (hget st.heap addr) key) addr
                (resolveObjectPath key pPath) cmd (trail ++ [key])
                (st.emit (Event.visitE (trail ++ [key]))))) := by
  refine ⟨?_, ?_, ?_⟩
  · intro hc ha
    have hred : processColor env key v addr st
        = setSlot st addr key (if v = vnull then vstr "NoColor" else env.toNativeColor v) := by
      unfold processColor
      rw [if_pos hc]
    rw [hred]
    exact ⟨slotOf_setSlot_self st addr key _ ha,
      fun k2 hk2 => slotOf_setSlot_of_ne st addr key k2 _ hk2, rfl⟩
  · intro hc
    exact processColor_id env key v addr st hc
  · intro cbk cmd recurse pPath trail hfalsy
    exact visitKey_falsy_eq env cbk cmd recurse addr key pPath trail st hfalsy

/-- Witness for the amended C7 theorem, exercising the null branch, the
untouched branch for a non-color key, and the falsy pre-short-circuit
clause. -/
theorem processColor_null_sentinel_else_service_witness :
    ((decide (("color" : String) = "color") || jsEndsWith "color" "Color") = true
      ∧ 0 < stCol.heap.length)
    ∧ (slotOf (processColor envNone "color" vnull 0 stCol) 0 "color"
        = (if (vnull : Val) = vnull then vstr "NoColor" else envNone.toNativeColor vnull)
      ∧ (∀ k2, k2 ≠ "color" →
          slotOf (processColor envNone "color" vnull 0 stCol) 0 k2 = slotOf stCol 0 k2)
      ∧ (processColor envNone "color" vnull 0 stCol).events = stCol.events) :=
  ⟨⟨by decide, by decide⟩,
    (processColor_null_sentinel_else_service envNone "color" vnull 0 stCol).1 (by decide)
      (by decide)⟩

/-- C9, confirmed. One application of the search-bar transform to an
object value stores a fresh object whose fields are the defaults merged
under the incoming fields; applying the transform again at the same
parent to that canonical result yields an object with exactly the same
fields — the defaults bind all of their keys, the first merge keeps them
all, and the slot write does not disturb the legacy sibling fields the
defaults are read from, so no further shape change occurs. -/
theorem searchBar_idempotent_on_canonical (st : St) (addr a : Nat)
    (ha : addr < st.heap.length) :
    slotOf (processSearchBar "searchBar" (vref a) addr st) addr "searchBar"
      = vref st.heap.length
    ∧ (hget (processSearchBar "searchBar" (vref a) addr st).heap st.heap.length).fields
      = spreadTwo (deprecatedSearchBarOptions (hget st.heap addr)) (hget st.heap a).fields
    ∧ slotOf (processSearchBar "searchBar" (vref st.heap.length) addr
          (processSearchBar "searchBar" (vref a) addr st)) addr "searchBar"
      = vref (processSearchBar "searchBar" (vref a) addr st).heap.length
    ∧ (hget (processSearchBar "searchBar" (vref st.heap.length) addr
          (processSearchBar "searchBar" (vref a) addr st)).heap
        (processSearchBar "searchBar" (vref a) addr st).heap.length).fields
      = (hget (processSearchBar "searchBar" (vref a) addr st).heap st.heap.length).fields := by
  set dso1 := deprecatedSearchBarOptions (hget st.heap addr) with hdso1
  set m1 : Obj := ⟨false, spreadTwo dso1 (hget st.heap a).fields⟩ with hm1
  have hst2 : processSearchBar "searchBar" (vref a) addr st
      = setSlot { st with heap := st.heap ++ [m1] } addr "searchBar" (vref st.heap.length) := rfl
  have hlen1 : addr < (st.heap ++ [m1]).length := by simp; omega
  have hneaddr : st.heap.length ≠ addr := fun h => absurd (h ▸ ha) (lt_irrefl _)
  have h2heap : (processSearchBar "searchBar" (vref a) addr st).heap
      = hset (st.heap ++ [m1]) addr
          (setF (hget (st.heap ++ [m1]) addr) "searchBar" (vref st.heap.length)) := by
    rw [hst2]; rfl
  have h2len : (processSearchBar "searchBar" (vref a) addr st).heap.length
      = st.heap.length + 1 := by
    rw [h2heap]; simp [hset]
  have h2slot : slotOf (processSearchBar "searchBar" (vref a) addr st) addr "searchBar"
      = vref st.heap.length := by
    rw [hst2]
    exact slotOf_setSlot_self _ addr _ _ hlen1
  have haddrne : addr ≠ st.heap.length := Nat.ne_of_lt ha
  have h2na : hget (processSearchBar "searchBar" (vref a) addr st).heap st.heap.length = m1 := by
    rw [h2heap, hget_hset_of_ne _ _ _ _ haddrne, hget_append_len]
  have h2addr : hget (processSearchBar "searchBar" (vref a) addr st).heap addr
      = setF (hget st.heap addr) "searchBar" (vref st.heap.length) := by
    rw [h2heap, hget_hset_self _ _ _ hlen1, hget_append_lt _ _ _ ha]
  have hdso2 : deprecatedSearchBarOptions
      (hget (processSearchBar "searchBar" (vref a) addr st).heap addr) = dso1 := by
    rw [h2addr, deprecatedSearchBarOptions_setF_searchBar]
  have hst3 : processSearchBar "searchBar" (vref st.heap.length) addr
      (processSearchBar "searchBar" (vref a) addr st)
      = setSlot { processSearchBar "searchBar" (vref a) addr st with
          heap := (processSearchBar "searchBar" (vref a) addr st).heap
            ++ [⟨false, spreadTwo (deprecatedSearchBarOptions
                  (hget (processSearchBar "searchBar" (vref a) addr st).heap addr))
                (hget (processSearchBar "searchBar" (vref a) addr st).heap
                  st.heap.length).fields⟩] } addr "searchBar"
        (vref (processSearchBar "searchBar" (vref a) addr st).heap.length) := rfl
  have hm2 : (⟨false, spreadTwo (deprecatedSearchBarOptions
        (hget (processSearchBar "searchBar" (vref a) addr st).heap addr))
      (hget (processSearchBar "searchBar" (vref a) addr st).heap
        st.heap.length).fields⟩ : Obj) = m1 := by
    rw [hdso2, h2na, hm1]
    exact congrArg (Obj.mk false) (spreadTwo_dso_idem _ _)
  refine ⟨h2slot, by rw [h2na], ?_, ?_⟩
  · rw [hst3]
    refine slotOf_setSlot_self _ addr _ _ ?_
    simp
    omega
  · rw [hst3]
    have hne2 : addr ≠ (processSearchBar "searchBar" (vref a) addr st).heap.length := by
      rw [h2len]; omega
    have : (setSlot { processSearchBar "searchBar" (vref a) addr st with
        heap := (processSearchBar "searchBar" (vref a) addr st).heap
          ++ [⟨false, spreadTwo (deprecatedSearchBarOptions
                (hget (processSearchBar "searchBar" (vref a) addr st).heap addr))
              (hget (processSearchBar "searchBar" (vref a) addr st).heap
                st.heap.length).fields⟩] } addr "searchBar"
        (vref (processSearchBar "searchBar" (vref a) addr st).heap.length)).heap
        = hset ((processSearchBar "searchBar" (vref a) addr st).heap
            ++ [⟨false, spreadTwo (deprecatedSearchBarOptions
                  (hget (processSearchBar "searchBar" (vref a) addr st).heap addr))
                (hget (processSearchBar "searchBar" (vref a) addr st).heap
                  st.heap.length).fields⟩]) addr
            (setF (hget ((processSearchBar "searchBar" (vref a) addr st).heap
              ++ [⟨false, spreadTwo (deprecatedSearchBarOptions
                    (hget (processSearchBar "searchBar" (vref a) addr st).heap addr))
                  (hget (processSearchBar "searchBar" (vref a) addr st).heap
                    st.heap.length).fields⟩]) addr) "searchBar"
              (vref (processSearchBar "searchBar" (vref a) addr st).heap.length)) := rfl
    rw [this, hget_hset_of_ne _ _ _ _ hne2, hget_append_len, hm2, h2na]

/-- Witness for the C9 theorem. -/
theorem searchBar_idempotent_on_canonical_witness :
    0 < c9st.heap.length
    ∧ (slotOf (processSearchBar "searchBar" (vref 1) 0 c9st) 0 "searchBar"
        = vref c9st.heap.length
      ∧ (hget (processSearchBar "searchBar" (vref 1) 0 c9st).heap c9st.heap.length).fields
        = spreadTwo (deprecatedSearchBarOptions (hget c9st.heap 0)) (hget c9st.heap 1).fields
      ∧ slotOf (processSearchBar "searchBar" (vref c9st.heap.length) 0
            (processSearchBar "searchBar" (vref 1) 0 c9st)) 0 "searchBar"
        = vref (processSearchBar "searchBar" (vref 1) 0 c9st).heap.length
      ∧ (hget (processSearchBar "searchBar" (vref c9st.heap.length) 0
            (processSearchBar "searchBar" (vref 1) 0 c9st)).heap
          (processSearchBar "searchBar" (vref 1) 0 c9st).heap.length).fields
        = (hget (processSearchBar "searchBar" (vref 1) 0 c9st).heap c9st.heap.length).fields) :=
  ⟨by decide, searchBar_idempotent_on_canonical c9st 0 1 (by decide)⟩

/-- C8, confirmed. In any walk started from processOptions or
processDefaultOptions, every visit and every registered-processor call
happens at a key trail that does not pass through a passProps segment:
passProps may itself be visited, but the walk never descends into its
value, so no registered processor and no built-in transform is ever
applied below it. (Transforms run only at visited keys, so the visit-trail
trace captures every application site.) -/
theorem passProps_never_recursed (env : Env) (fuel addr : Nat) (cmd : String) (st : St)
    (hst : ∀ e ∈ st.events, noAncestorPassProps e = true) :
    (∀ e ∈ (processOptions env fuel addr cmd st).events, noAncestorPassProps e = true)
    ∧ (∀ e ∈ (processDefaultOptions env fuel addr cmd st).events,
        noAncestorPassProps e = true) := by
  constructor
  · intro e he
    rcases events_shape_processObject_pass env (CbKind.optionsCb st.heap.length) cmd fuel addr
      "" [] { st with heap := st.heap ++ [hget st.heap addr] } (by simp) e he with h | h
    · exact hst e h
    · exact h
  · intro e he
    rcases events_shape_processObject_pass env (CbKind.defaultCb st.heap.length) cmd fuel addr
      "" [] { st with heap := st.heap ++ [hget st.heap addr] } (by simp) e he with h | h
    · exact hst e h
    · exact h

/-- Witness for the C8 theorem. -/
theorem passProps_never_recursed_witness :
    (∀ e ∈ c8st.events, noAncestorPassProps e = true)
    ∧ ((∀ e ∈ (processOptions envNone 5 0 "cmd" c8st).events, noAncestorPassProps e = true)
      ∧ (∀ e ∈ (processDefaultOptions envNone 5 0 "cmd" c8st).events,
          noAncestorPassProps e = true)) :=
  ⟨by simp [c8st], passProps_never_recursed envNone 5 0 "cmd" c8st (by simp [c8st])⟩

/-- C10, counterexample. Walking \x7b pop: \x7b x: 1 \x7d \x7d from
processOptions with a registered processor for path pop that returns
undefined: the enumerated value is truthy, so the falsy short-circuit does
not fire, yet by the time the pop animation transform performs its
non-null access the slot holds undefined — the access hits a missing field
inside a walk started from the public entry point, refuting the claim
that this can only happen by calling the transform outside the walk. -/
theorem pop_access_falsy_counterexample :
    Event.popAccess vundef ∈ c10run.events
    ∧ truthy vundef = false
    ∧ Event.errEvent "pop" ∈ c10run.events := by decide

/-- C10, amended. When no processor is registered (the registry lookup
returns absent for every path), every non-null access performed by the pop
and push animation transforms during a walk started from processOptions or
processDefaultOptions finds a truthy value in the parent slot: the key
being enumerated belongs to that object, falsy enumerated values were
skipped, and no earlier step of the visit rewrites the slot for the keys
pop and push. A registered processor that overwrites the slot with a falsy
value breaks the guarantee, as the counterexample shows. -/
theorem pop_push_access_truthy_with_empty_registry (env : Env) (fuel addr : Nat)
    (cmd : String) (st : St)
    (hp : env.getProcessors = fun _ => none)
    (hst : ∀ e ∈ st.events, animAccessTruthy e = true) :
    (∀ e ∈ (processOptions env fuel addr cmd st).events, animAccessTruthy e = true)
    ∧ (∀ e ∈ (processDefaultOptions env fuel addr cmd st).events,
        animAccessTruthy e = true) := by
  constructor
  · intro e he
    rcases events_shape_processObject_acc env (CbKind.optionsCb st.heap.length) cmd hp fuel
      addr "" [] { st with heap := st.heap ++ [hget st.heap addr] } e he with h | h
    · exact hst e h
    · exact h
  · intro e he
    rcases events_shape_processObject_acc env (CbKind.defaultCb st.heap.length) cmd hp fuel
      addr "" [] { st with heap := st.heap ++ [hget st.heap addr] } e he with h | h
    · exact hst e h
    · exact h

/-- Witness for the amended C10 theorem: with the empty registry the walk
of \x7b pop: \x7b x: 1 \x7d \x7d only records truthy pop accesses. -/
theorem pop_push_access_truthy_with_empty_registry_witness :
    ((envNone.getProcessors = fun _ => none)
      ∧ (∀ e ∈ c10st.events, animAccessTruthy e = true))
    ∧ ((∀ e ∈ (processOptions envNone 5 0 "cmd" c10st).events, animAccessTruthy e = true)
      ∧ (∀ e ∈ (processDefaultOptions envNone 5 0 "cmd" c10st).events,
          animAccessTruthy e = true)) :=
  ⟨⟨rfl, by simp [c10st]⟩,
    pop_push_access_truthy_with_empty_registry envNone 5 0 "cmd" c10st rfl (by simp [c10st])⟩
